import Mathlib

/-!
Verification of the task-handoff orchestration engine of the `ai-team`
backend (`backend/workforce/team.py`, `backend/core/session.py`,
`backend/utils/pricing_utils.py`).

The Python source is shallowly embedded: Python dicts become association
lists, JSON payload decoding is modelled by an executable parser over an
inductive `Json` type, the handoff callback and the session run loop become
pure state-passing functions, and Python exceptions become `Except` /
absorbed branches exactly where the source catches them.
-/

namespace AiTeam

/-- Model of a Python/JSON structured value as produced by `json.loads`.
Numbers are restricted to integers (the payloads exchanged by the system
are strings, objects and lists; float handling is immaterial to every
property proved below). -/
inductive Json where
  | null
  | bool (b : Bool)
  | num (n : Int)
  | str (s : String)
  | arr (elems : List Json)
  | obj (fields : List (String × Json))

/-- Python dict assignment `d[k] = v` on an association list: replaces the
value at an existing key, otherwise appends the new binding. -/
def dictSet {α : Type} : List (String × α) → String → α → List (String × α)
  | [], k, v => [(k, v)]
  | (k₀, v₀) :: rest, k, v =>
    if k₀ = k then (k, v) :: rest else (k₀, v₀) :: dictSet rest k v

/-- Python dict lookup `d.get(k)` on an association list. -/
def dictGet? {α : Type} (d : List (String × α)) (k : String) : Option α :=
  (d.find? (fun p => p.1 = k)).map (fun p => p.2)

/-- Python truthiness of a structured value (`bool(x)`), used by
`if feedback:` and by the `or` fallbacks in the source. -/
def Json.truthy : Json → Bool
  | .null => false
  | .bool b => b
  | .num n => n ≠ 0
  | .str s => s ≠ ""
  | .arr l => !l.isEmpty
  | .obj l => !l.isEmpty

/-- Whitespace skipping of the JSON grammar. -/
def skipWs : List Char → List Char
  | [] => []
  | c :: cs => if c = ' ' || c = '\t' || c = '\n' || c = '\r' then skipWs cs else c :: cs

/-- Value of a hexadecimal digit, for `\u` string escapes (codes 48-57 are
the digits, 97-102 lowercase `a`-`f`, 65-70 uppercase `A`-`F`). -/
def hexVal (c : Char) : Option Nat :=
  let n := c.toNat
  if 48 ≤ n ∧ n ≤ 57 then some (n - 48)
  else if 97 ≤ n ∧ n ≤ 102 then some (n - 87)
  else if 65 ≤ n ∧ n ≤ 70 then some (n - 55)
  else none

/-- Body of a JSON string literal (after the opening quote): returns the
decoded string and the input after the closing quote; `none` on an
unterminated string or invalid escape (Python raises `JSONDecodeError`). -/
def parseStringBody : List Char → Option (String × List Char)
  | [] => none
  | '"' :: rest => some ("", rest)
  | '\\' :: '"' :: rest => (parseStringBody rest).map (fun p => (String.mk ('"' :: p.1.data), p.2))
  | '\\' :: '\\' :: rest => (parseStringBody rest).map (fun p => (String.mk ('\\' :: p.1.data), p.2))
  | '\\' :: '/' :: rest => (parseStringBody rest).map (fun p => (String.mk ('/' :: p.1.data), p.2))
  | '\\' :: 'n' :: rest => (parseStringBody rest).map (fun p => (String.mk ('\n' :: p.1.data), p.2))
  | '\\' :: 't' :: rest => (parseStringBody rest).map (fun p => (String.mk ('\t' :: p.1.data), p.2))
  | '\\' :: 'r' :: rest => (parseStringBody rest).map (fun p => (String.mk ('\r' :: p.1.data), p.2))
  | '\\' :: 'b' :: rest => (parseStringBody rest).map (fun p => (String.mk (Char.ofNat 8 :: p.1.data), p.2))
  | '\\' :: 'f' :: rest => (parseStringBody rest).map (fun p => (String.mk (Char.ofNat 12 :: p.1.data), p.2))
  | '\\' :: 'u' :: c₁ :: c₂ :: c₃ :: c₄ :: rest =>
    match hexVal c₁, hexVal c₂, hexVal c₃, hexVal c₄ with
    | some a, some b, some c, some d =>
      (parseStringBody rest).map
        (fun p => (String.mk (Char.ofNat (((a * 16 + b) * 16 + c) * 16 + d) :: p.1.data), p.2))
    | _, _, _, _ => none
  | '\\' :: _ => none
  | c :: rest => (parseStringBody rest).map (fun p => (String.mk (c :: p.1.data), p.2))

/-- Consume a run of decimal digits, accumulating their value. -/
def parseDigits : Nat → List Char → Nat × List Char
  | acc, [] => (acc, [])
  | acc, c :: cs =>
    if '0' ≤ c && c ≤ '9' then parseDigits (acc * 10 + (c.toNat - '0'.toNat)) cs
    else (acc, c :: cs)

/-- Which grammar production the parser core is working on: a single value,
the element list of an array, or the member list of an object. -/
inductive PKind where
  | val
  | elems
  | fields

/-- Result of one parser-core production. -/
inductive PRes where
  | val (j : Json)
  | elems (l : List Json)
  | fields (l : List (String × Json))

/-- Fuel-indexed JSON parser core (the recursive heart of `json_loads`),
written as a single function structurally recursive on the fuel so that it
reduces definitionally on closed inputs. -/
def parseCore : Nat → PKind → List Char → Option (PRes × List Char)
  | 0, _, _ => none
  | fuel + 1, .val, cs =>
    match skipWs cs with
    | 'n' :: 'u' :: 'l' :: 'l' :: rest => some (.val .null, rest)
    | 't' :: 'r' :: 'u' :: 'e' :: rest => some (.val (.bool true), rest)
    | 'f' :: 'a' :: 'l' :: 's' :: 'e' :: rest => some (.val (.bool false), rest)
    | '"' :: rest => (parseStringBody rest).map (fun p => (.val (.str p.1), p.2))
    | '[' :: rest =>
      match skipWs rest with
      | ']' :: rest₂ => some (.val (.arr []), rest₂)
      | rest₂ =>
        match parseCore fuel .elems rest₂ with
        | some (.elems l, rest₃) => some (.val (.arr l), rest₃)
        | _ => none
    | '{' :: rest =>
      match skipWs rest with
      | '}' :: rest₂ => some (.val (.obj []), rest₂)
      | rest₂ =>
        match parseCore fuel .fields rest₂ with
        | some (.fields l, rest₃) => some (.val (.obj l), rest₃)
        | _ => none
    | '-' :: c :: rest =>
      if '0' ≤ c && c ≤ '9' then
        let p := parseDigits (c.toNat - '0'.toNat) rest
        some (.val (.num (-(p.1 : Int))), p.2)
      else none
    | c :: rest =>
      if '0' ≤ c && c ≤ '9' then
        let p := parseDigits (c.toNat - '0'.toNat) rest
        some (.val (.num (p.1 : Int)), p.2)
      else none
    | [] => none
  | fuel + 1, .elems, cs =>
    match parseCore fuel .val cs with
    | some (.val v, rest) =>
      match skipWs rest with
      | ',' :: rest₂ =>
        match parseCore fuel .elems rest₂ with
        | some (.elems l, rest₃) => some (.elems (v :: l), rest₃)
        | _ => none
      | ']' :: rest₂ => some (.elems [v], rest₂)
      | _ => none
    | _ => none
  | fuel + 1, .fields, cs =>
    match skipWs cs with
    | '"' :: rest =>
      match parseStringBody rest with
      | none => none
      | some (key, rest₂) =>
        match skipWs rest₂ with
        | ':' :: rest₃ =>
          match parseCore fuel .val rest₃ with
          | some (.val v, rest₄) =>
            match skipWs rest₄ with
            | ',' :: rest₅ =>
              match parseCore fuel .fields rest₅ with
              | some (.fields l, rest₆) => some (.fields ((key, v) :: l), rest₆)
              | _ => none
            | '}' :: rest₅ => some (.fields [(key, v)], rest₅)
            | _ => none
          | _ => none
        | _ => none
    | _ => none

/-- Model of Python's `json.loads` (standard-library decoder, external to the
repository): parses a complete JSON document, `none` on a `JSONDecodeError`.
Restricted to integer numerals and the common string escapes; this only
narrows which inputs decode successfully and is immaterial to the theorems,
all of which case on the decode result. -/
def json_loads (s : String) : Option Json :=
  match parseCore (2 * s.length + 2) .val s.data with
  | some (.val v, rest) => if (skipWs rest).isEmpty then some v else none
  | _ => none

/-- ASCII uppercasing of one character. -/
def charUpper (c : Char) : Char :=
  if 'a' ≤ c && c ≤ 'z' then Char.ofNat (c.toNat - 32) else c

/-- Model of Python's `str.upper` (ASCII range; the verdicts compared
against are the ASCII words `REVISE` and `PASS`, so non-ASCII case mapping
is immaterial). -/
def strUpper (s : String) : String := String.mk (s.data.map charUpper)

/-! ## The workforce data model (`backend/workforce/team.py`) -/

/-- Embedding of `TaskMessage`: the universal inter-agent message envelope. -/
structure TaskMessage where
  kind : String
  payload_json : String

/-- One artifact value as stored by `on_task_handoff`:
`{"kind": message.kind, "payload": payload}`. -/
structure Artifact where
  kind : String
  payload : Json

/-- Task status literals of `TaskState.status`. -/
inductive Status where
  | in_progress
  | needs_revision
  | done
deriving DecidableEq, Repr

/-- Embedding of the `TaskState` dataclass with its field defaults. -/
structure TaskState where
  goal : String := ""
  task_type : String := ""
  iteration : Int := 0
  max_iterations : Int := 3
  status : Status := .in_progress
  artifacts : List (String × Artifact) := []
  feedback : List Json := []

/-- One entry of `WorkforceContext.trace_steps` as appended by `log_step`.
The wall-clock timestamp is threaded in as a parameter. -/
structure TraceStep where
  timestamp : String
  agent : String
  action : String
  details : String

/-- Embedding of the `WorkforceContext` dataclass. -/
structure WorkforceContext where
  company_data : List (String × Json) := []
  trace_steps : List TraceStep := []
  task : TaskState := {}
  current_agent : String := "founder"

/-- Embedding of `WorkforceContext.log_step`; `now` stands for
`datetime.now().isoformat()`. -/
def WorkforceContext.log_step (ctx : WorkforceContext) (now agent_name action details : String) :
    WorkforceContext :=
  { ctx with trace_steps := ctx.trace_steps ++ [⟨now, agent_name, action, details⟩] }

/-- Role metadata of one `HIERARCHY` entry. -/
structure RoleInfo where
  name : String
  role : String
  children : List String

/-- Embedding of the static `HIERARCHY` table. -/
def HIERARCHY : List (String × RoleInfo) :=
  [ ("founder", ⟨"Founder", "Orchestrator",
      ["marketing_head", "market_researcher", "data_analyst", "evaluator"]⟩),
    ("marketing_head", ⟨"Marketing Head", "Lead", ["seo_analyst", "content_creator"]⟩),
    ("market_researcher", ⟨"Market Researcher", "Worker", []⟩),
    ("data_analyst", ⟨"Data Analyst", "Worker", []⟩),
    ("seo_analyst", ⟨"SEO Analyst", "Worker", []⟩),
    ("content_creator", ⟨"Content Creator", "Worker", []⟩),
    ("evaluator", ⟨"Evaluator", "Reviewer", []⟩) ]

/-- Embedding of `on_task_handoff`: logs the handoff, advances
`current_agent`, decodes the payload (a `JSONDecodeError` degrades to the
`{"raw": ...}` sentinel object), stores the artifact under
`"{from_agent}_v{iteration}"`, and for `kind == "evaluation"` applies the
verdict logic, whose `except Exception: pass` absorbs the attribute errors
that a non-dict payload or a non-string verdict would raise. -/
def on_task_handoff (now : String) (ctx : WorkforceContext) (message : TaskMessage)
    (from_agent to_agent : String) : WorkforceContext :=
  let ctx₁ := ctx.log_step now from_agent "handoff" (to_agent ++ " (kind=" ++ message.kind ++ ")")
  let ctx₂ := { ctx₁ with current_agent := to_agent }
  let payload :=
    match json_loads message.payload_json with
    | some p => p
    | none => Json.obj [("raw", Json.str message.payload_json)]
  let artifact_key := from_agent ++ "_v" ++ toString ctx₂.task.iteration
  let ctx₃ := { ctx₂ with task :=
    { ctx₂.task with artifacts := dictSet ctx₂.task.artifacts artifact_key ⟨message.kind, payload⟩ } }
  if message.kind = "evaluation" then
    match payload with
    | .obj fields =>
      match dictGet? fields "verdict" with
      | some (.str s) =>
        let verdict := strUpper s
        if verdict = "REVISE" then
          let ctx₄ := { ctx₃ with task := { ctx₃.task with status := .needs_revision } }
          match dictGet? fields "feedback" with
          | some fb =>
            if fb.truthy then
              { ctx₄ with task := { ctx₄.task with feedback := ctx₄.task.feedback ++ [fb] } }
            else ctx₄
          | none => ctx₄
        else if verdict = "PASS" then
          { ctx₃ with task := { ctx₃.task with status := .done } }
        else ctx₃
      | some _ => ctx₃
      | none => ctx₃
    | _ => ctx₃
  else ctx₃

/-- The transfer targets wired for each agent in `create_workforce`: the
`handoffs` lists registered on the SDK agents (these include the hand-back
edges to `founder` and `marketing_head` that the bare `HIERARCHY.children`
table omits). -/
def authorizedTargets : String → List String
  | "founder" => ["marketing_head", "market_researcher", "data_analyst", "evaluator"]
  | "marketing_head" => ["seo_analyst", "content_creator", "founder"]
  | "seo_analyst" => ["marketing_head"]
  | "content_creator" => ["marketing_head"]
  | "market_researcher" => ["founder"]
  | "data_analyst" => ["founder"]
  | "evaluator" => ["founder"]
  | _ => []

/-- Error raised on an unauthorized transfer attempt. -/
inductive HandoffError where
  | handoffViolation (from_agent to_agent : String)
deriving DecidableEq

/-- Modelled from the spec: a transfer attempt as seen through the SDK glue
that is not part of this repository. `create_workforce` registers a handoff
tool only for the pairs in `authorizedTargets`, each wired to
`on_task_handoff` with the pair baked in, so an authorized attempt runs the
callback and an unauthorized attempt cannot be executed — modelled, per the
spec, as failing with `HandoffViolation`. -/
def attemptTransfer (now : String) (ctx : WorkforceContext) (message : TaskMessage)
    (from_agent to_agent : String) : Except HandoffError WorkforceContext :=
  if to_agent ∈ authorizedTargets from_agent then
    .ok (on_task_handoff now ctx message from_agent to_agent)
  else
    .error (.handoffViolation from_agent to_agent)

/-! ## The session run coordinator (`backend/core/session.py`) -/

/-- Embedding of the `EventType` enumeration. -/
inductive EventType where
  | start
  | agent_change
  | tool_call
  | tool_result
  | delta
  | complete
  | artifacts_saved
  | error
deriving DecidableEq, Repr

/-- String value of each event type (`EventType.value` in the source). -/
def EventType.value : EventType → String
  | .start => "start"
  | .agent_change => "agent_change"
  | .tool_call => "tool_call"
  | .tool_result => "tool_result"
  | .delta => "delta"
  | .complete => "complete"
  | .artifacts_saved => "artifacts_saved"
  | .error => "error"

/-- Embedding of the `SessionEvent` dataclass. -/
structure SessionEvent where
  type : EventType
  timestamp : String
  agent : String
  data : List (String × Json)

/-- Embedding of `SessionEvent.to_dict`: the dict literal
`{"type": ..., "timestamp": ..., "agent": ..., **self.data}`, in which the
spread of `data` comes last, so a `data` key equal to one of the three
envelope keys replaces the envelope value. -/
def SessionEvent.to_dict (e : SessionEvent) : List (String × Json) :=
  e.data.foldl (fun d kv => dictSet d kv.1 kv.2)
    [("type", Json.str e.type.value), ("timestamp", Json.str e.timestamp),
     ("agent", Json.str e.agent)]

/-- Effective deduplication id of a tool-call signal:
`call_id or id(item.raw_item)`. A string id can never compare equal to the
integer object id that the falsy fallback produces. -/
inductive EffId where
  | strId (s : String)
  | objId (n : Nat)
deriving DecidableEq, Repr

/-- Mutable state of one `Session` as far as the run loop reads or writes
it. Wall-clock timestamps are abstracted to `""`. `next_obj_id` models the
freshness of `id(item.raw_item)`, the fallback used when a tool signal
carries no `call_id`. -/
structure SessionState where
  current_agent : String := "founder"
  agents_involved : List String := []
  emitted_tool_calls : List EffId := []
  response_chunks : List String := []
  response : String := ""
  events : List SessionEvent := []
  context : WorkforceContext := {}
  next_obj_id : Nat := 0

/-- Python `set.add` on the involved-agents set, modelled as a
duplicate-free list. -/
def involvedInsert (l : List String) (a : String) : List String :=
  if a ∈ l then l else l ++ [a]

/-- Embedding of `Session._emit_with_agent`: builds the event, appends it to
`self.events` and logs it (`_log_event` writes `to_dict` as one JSONL
line, so the log is `events_jsonl` below). -/
def SessionState.emit (st : SessionState) (t : EventType) (agent : String)
    (data : List (String × Json)) : SessionState :=
  { st with events := st.events ++ [⟨t, "", agent, data⟩] }

/-- Contents of the per-run `events.jsonl` log: one serialized event per
emitted event, written synchronously by `_log_event`. -/
def events_jsonl (st : SessionState) : List (List (String × Json)) :=
  st.events.map SessionEvent.to_dict

/-- Raw signals of the Agent Runtime stream as the run loop distinguishes
them: `function_call` items (with their optional `call_id`),
`function_call_output` items, text deltas, handoff callbacks firing, and
anything else (ignored by the loop). -/
inductive RawSignal where
  | toolCall (call_id : Option String) (name : String)
  | toolResult
  | textDelta (content : String)
  | handoffReq (now : String) (message : TaskMessage) (from_agent to_agent : String)
  | other

/-- Head-of-loop synchronization with `context.current_agent` (the source
of truth updated by handoff callbacks): on a difference, adopt it, mark the
agent involved and emit `AGENT_CHANGE`. -/
def stepSync (st : SessionState) : SessionState :=
  if st.context.current_agent ≠ st.current_agent then
    let st₁ := { st with current_agent := st.context.current_agent,
                         agents_involved := involvedInsert st.agents_involved st.context.current_agent }
    st₁.emit .agent_change st₁.current_agent
      [("details", Json.str (st₁.current_agent ++ " is now handling the request"))]
  else st

/-- Body of the run loop for one raw signal. Tool calls are deduplicated by
effective call id (`call_id or id(raw_item)`: a falsy `call_id` — absent or
empty — falls back to the fresh object id); tool calls and results are
attributed to `context.current_agent`; empty deltas are falsy and skipped;
a handoff request runs the transfer and a `HandoffViolation` propagates as
the exception that aborts the run. -/
def stepSignal (st : SessionState) : RawSignal → Except HandoffError SessionState
  | .toolCall call_id name =>
    let eff : EffId :=
      match call_id with
      | some c => if c = "" then .objId st.next_obj_id else .strId c
      | none => .objId st.next_obj_id
    let st₁ := { st with next_obj_id := st.next_obj_id + 1 }
    if st₁.emitted_tool_calls.any (fun y => y = eff) then .ok st₁
    else
      let agent_for_call := st₁.context.current_agent
      let st₂ := { st₁ with emitted_tool_calls := st₁.emitted_tool_calls ++ [eff],
                            agents_involved := involvedInsert st₁.agents_involved agent_for_call }
      .ok (st₂.emit .tool_call agent_for_call
        [("tool", Json.str name), ("details", Json.str ("Using tool: " ++ name))])
  | .toolResult =>
    .ok (st.emit .tool_result st.context.current_agent
      [("details", Json.str "Tool execution completed")])
  | .textDelta content =>
    if content = "" then .ok st
    else
      .ok (({ st with response_chunks := st.response_chunks ++ [content] }).emit .delta
        st.current_agent [("content", Json.str content)])
  | .handoffReq now message from_agent to_agent =>
    match attemptTransfer now st.context message from_agent to_agent with
    | .ok ctx => .ok { st with context := ctx }
    | .error e => .error e
  | .other => .ok st

/-- The `async for` loop over the runtime stream: processes signals in
arrival order; a raised `HandoffViolation` aborts the loop, keeping the
events already produced. -/
def processSignals : SessionState → List RawSignal → SessionState × Option HandoffError
  | st, [] => (st, none)
  | st, sig :: rest =>
    let st₁ := stepSync st
    match stepSignal st₁ sig with
    | .ok st₂ => processSignals st₂ rest
    | .error e => (st₁, some e)

/-- How the Agent Runtime ends the run after its stream: a final output
(possibly absent or empty) or an unhandled exception with its message. -/
inductive RunOutcome where
  | success (final_output : Option String)
  | failure (error_msg : String)

/-- Python `a or b` on an optional string: `None` and `""` are falsy. -/
def pyOrStr (a : Option String) (b : String) : String :=
  match a with
  | some s => if s = "" then b else s
  | none => b

/-- Modelled from the spec: the message of the `HandoffViolation` exception
names the offending transfer (the exception type itself lives in the SDK
glue outside this repository). -/
def handoffErrorMsg : HandoffError → String
  | .handoffViolation f t => "HandoffViolation: unauthorized transfer " ++ f ++ " -> " ++ t

/-- Placeholder for `str(self.artifacts_path)` (a run-id directory under
`backend/tmp`; the concrete path is environmental). -/
def artifactsPath : String := "backend/tmp/<run_id>"

/-- The `except Exception` branch of `run_stream`: set the error response,
emit `ERROR`, still save artifacts and emit `ARTIFACTS_SAVED`. -/
def errorExit (st : SessionState) (msg : String) : SessionState :=
  let st₁ := { st with response := "Error: " ++ msg }
  let st₂ := st₁.emit .error st₁.current_agent [("error", Json.str msg)]
  st₂.emit .artifacts_saved st₂.current_agent [("path", Json.str artifactsPath)]

/-- State of the session right after the `START` event: fresh context,
initial agent marked involved, input persisted. -/
def startState (message : String) : SessionState :=
  let st₀ : SessionState := { agents_involved := ["founder"],
                              context := { company_data := [("input", Json.str message)] } }
  st₀.emit .start "founder" [("message", Json.str "Starting agent workflow...")]

/-- The success tail of `run_stream`: resolve the response through the
falsy-fallback chain (`final_output or joined deltas or sentinel`), emit
`COMPLETE`, save artifacts, emit `ARTIFACTS_SAVED`. -/
def completeExit (st : SessionState) (final_output : Option String) : SessionState :=
  let resp := pyOrStr final_output
    (pyOrStr (some (String.join st.response_chunks)) "No response generated.")
  let st₂ := { st with response := resp }
  let st₃ := st₂.emit .complete st₂.current_agent
    [("response", Json.str resp),
     ("agents_involved", Json.arr (st₂.agents_involved.map Json.str))]
  st₃.emit .artifacts_saved st₃.current_agent [("path", Json.str artifactsPath)]

/-- Embedding of `Session.run_stream` as the total event/state function of
the consumed runtime stream. Artifact saving is enabled, as at every
`Session` construction site in the repository (`save_artifacts=True`), so
`artifacts_path` is set and both exit paths emit `ARTIFACTS_SAVED`. The
usage/cost bookkeeping (which emits no event) is modelled separately by
`estimate_cost`. -/
def run_stream (message : String) (signals : List RawSignal) (outcome : RunOutcome) :
    SessionState :=
  match processSignals (startState message) signals with
  | (st, some e) => errorExit st (handoffErrorMsg e)
  | (st, none) =>
    match outcome with
    | .failure msg => errorExit st msg
    | .success final_output => completeExit st final_output

/-! ## Cost estimation (`backend/utils/pricing_utils.py`) -/

/-- One pricing row: USD per million input/output tokens. -/
structure Pricing where
  input : ℚ
  output : ℚ
deriving DecidableEq

/-- Embedding of the `MODEL_PRICING` table. -/
def MODEL_PRICING : List (String × Pricing) :=
  [ ("gpt-4.1", ⟨2.00, 8.00⟩),
    ("gpt-4.1-mini", ⟨0.40, 1.60⟩),
    ("gpt-4.1-nano", ⟨0.10, 0.40⟩),
    ("gpt-4o", ⟨2.50, 10.00⟩),
    ("gpt-4o-mini", ⟨0.15, 0.60⟩) ]

/-- Embedding of `DEFAULT_MODEL`. -/
def DEFAULT_MODEL : String := "gpt-4.1"

/-- Round-half-to-even to an integer, the rounding mode of Python's
`round` (modelled exactly on rationals; the source computes on binary
floats, whose representation error is immaterial to the stated formula). -/
def roundHalfEven (x : ℚ) : ℤ :=
  let f := ⌊x⌋
  let r := x - f
  if r < 1/2 then f
  else if 1/2 < r then f + 1
  else if f % 2 = 0 then f else f + 1

/-- Python `round(x, 6)`: round-half-even at six decimal places. -/
def pyRound6 (x : ℚ) : ℚ := (roundHalfEven (x * 1000000) : ℚ) / 1000000

/-- Return value of `estimate_cost`. -/
structure CostEstimate where
  model : String
  total_estimated_usd_cost : Option ℚ
deriving DecidableEq

/-- Embedding of `estimate_cost`: looks up the pricing row with a fallback
to `MODEL_PRICING[DEFAULT_MODEL]`, computes the per-million-token linear
cost rounded to six decimals, and reports the resolved model name; the
`except Exception` branch (reached only if even the default row were
missing, a `KeyError`) degrades to a `None` cost. -/
def estimate_cost (input_tokens output_tokens : ℕ) (model : String) : CostEstimate :=
  match dictGet? MODEL_PRICING model, dictGet? MODEL_PRICING DEFAULT_MODEL with
  | some pricing, _ =>
    ⟨model, some (pyRound6 ((input_tokens : ℚ) / 1000000 * pricing.input
      + (output_tokens : ℚ) / 1000000 * pricing.output))⟩
  | none, some pricing =>
    ⟨DEFAULT_MODEL, some (pyRound6 ((input_tokens : ℚ) / 1000000 * pricing.input
      + (output_tokens : ℚ) / 1000000 * pricing.output))⟩
  | none, none => ⟨model, none⟩

/-! ## Workforce construction (`create_workforce` in `team.py`) -/

/-- Python exceptions that the construction code can raise. -/
inductive PyError where
  | typeError
  | attributeError
deriving DecidableEq

/-- Python `x.get(k, dflt)`: only dicts have `.get`; on any other value the
attribute access raises `AttributeError`. -/
def pyGet (v : Json) (k : String) (dflt : Json) : Except PyError Json :=
  match v with
  | .obj fields => .ok ((dictGet? fields k).getD dflt)
  | _ => .error .attributeError

/-- Python `", ".join(x)`: joins an iterable of strings (iterating a string
yields its characters, iterating a dict yields its keys); a non-iterable
value or a non-string element raises `TypeError`. -/
def pyJoinComma (v : Json) : Except PyError String :=
  match v with
  | .arr elems =>
    match elems.mapM (fun e => match e with | .str s => some s | _ => none) with
    | some l => .ok (String.intercalate ", " l)
    | none => .error .typeError
  | .str s => .ok (String.intercalate ", " (s.data.map (fun c => String.mk [c])))
  | .obj fields => .ok (String.intercalate ", " (fields.map (fun p => p.1)))
  | _ => .error .typeError

/-- One constructed agent: its display name and the transfer targets
registered on it. -/
structure AgentSpec where
  name : String
  handoff_targets : List String

/-- Return value of `create_workforce`. -/
structure Workforce where
  entry_agent : String
  all_agents : List (String × AgentSpec)
  hierarchy : List (String × RoleInfo)

/-- The seven agent ids constructed by `create_workforce`. -/
def AGENT_IDS : List String :=
  ["founder", "marketing_head", "market_researcher", "data_analyst",
   "seo_analyst", "content_creator", "evaluator"]

/-- Embedding of `create_workforce`: reads the company fields with their
defaults (each `c.get` raises `AttributeError` when the `company` value is
not a dict), joins the product list (raising `TypeError` on non-string
entries), and assembles the fixed seven agents with their registered
handoff targets. The prompt text interpolation and `ModelSettings` have no
failure modes and no bearing on any claim, and `create_tools` only performs
defaulted `.get` calls on its dict argument, so they are not reified. No
hierarchy validation of any kind is performed. -/
def create_workforce (company_data : List (String × Json)) : Except PyError Workforce := do
  let c := (dictGet? company_data "company").getD (Json.obj [])
  let _name ← pyGet c "name" (Json.str "Company")
  let _mission ← pyGet c "mission" (Json.str "")
  let _voice ← pyGet c "brand_voice" (Json.str "")
  let _philosophy ← pyGet c "philosophy" (Json.str "")
  let _audience ← pyGet c "target_audience" (Json.str "")
  let products ← pyGet c "products" (Json.arr [])
  let joined ← pyJoinComma products
  let _products_str := if joined = "" then "N/A" else joined
  return { entry_agent := "founder",
           all_agents := AGENT_IDS.map
             (fun a => (a, ⟨((dictGet? HIERARCHY a).map RoleInfo.name).getD a,
                            authorizedTargets a⟩)),
           hierarchy := HIERARCHY }

/-! ## Observation functions used to state the properties -/

/-- The payload value the router works with: the decoded JSON, or the
`{"raw": ...}` sentinel when decoding fails. -/
def decodedPayload (msg : TaskMessage) : Json :=
  match json_loads msg.payload_json with
  | some p => p
  | none => Json.obj [("raw", Json.str msg.payload_json)]

/-- Outcome of `payload.get("verdict", "").upper()` under the surrounding
`except Exception: pass`: `none` when the expression raises (non-dict
payload, or non-string verdict), otherwise the uppercased verdict, with
`""` for a missing key. -/
def verdictUpper (p : Json) : Option String :=
  match p with
  | .obj fields =>
    match dictGet? fields "verdict" with
    | some (.str s) => some (strUpper s)
    | some _ => none
    | none => some ""
  | _ => none

/-- The task status after one handoff, as a function of the message and the
previous status: an `evaluation` whose uppercased verdict is `REVISE` yields
`needs_revision` and `PASS` yields `done`, independently of the previous
status; everything else leaves the status alone. -/
def statusAfter (msg : TaskMessage) (s : Status) : Status :=
  if msg.kind = "evaluation" then
    match verdictUpper (decodedPayload msg) with
    | some v => if v = "REVISE" then .needs_revision else if v = "PASS" then .done else s
    | none => s
  else s

/-- The feedback entries one handoff appends: the truthy `feedback` value of
a `REVISE` evaluation, nothing otherwise. -/
def feedbackAdded (msg : TaskMessage) : List Json :=
  if msg.kind = "evaluation" then
    match decodedPayload msg with
    | .obj fields =>
      match dictGet? fields "verdict" with
      | some (.str v) =>
        if strUpper v = "REVISE" then
          match dictGet? fields "feedback" with
          | some fb => if fb.truthy then [fb] else []
          | none => []
        else []
      | _ => []
    | _ => []
  else []

/-- Whether a decoded payload is an object carrying a `verdict` member. -/
def hasVerdict (p : Json) : Bool :=
  match p with
  | .obj fields => (dictGet? fields "verdict").isSome
  | _ => false

/-- The artifact key `"{from_agent}_v{iteration}"` a handoff stores under. -/
def artifactKey (from_agent : String) (iteration : Int) : String :=
  from_agent ++ "_v" ++ toString iteration

/-- Boolean recognizer for `TOOL_CALL` events. -/
def isToolCallEv (ev : SessionEvent) : Bool := ev.type = EventType.tool_call

/-- The sequence of event types a session state has emitted. -/
def typesOf (st : SessionState) : List EventType := st.events.map SessionEvent.type

/-- Validation predicate the spec prescribes for the Hierarchy: every id
referenced as a transfer target exists as a key. -/
def hierarchyTargetsValid : Bool :=
  HIERARCHY.all (fun p => p.2.children.all (fun c => (dictGet? HIERARCHY c).isSome))

/-- Sufficient well-formedness of tenant data for `create_workforce` to
succeed: the `company` value (defaulted to `{}`) is a dict whose `products`
value (defaulted to `[]`) is a list of strings, a string, or a dict. -/
def companyWellFormed (cd : List (String × Json)) : Bool :=
  match (dictGet? cd "company").getD (Json.obj []) with
  | .obj fields =>
    match (dictGet? fields "products").getD (Json.arr []) with
    | .arr elems => elems.all (fun e => match e with | .str _ => true | _ => false)
    | .str _ => true
    | .obj _ => true
    | _ => false
  | _ => false

/-- Evolution relation of the run loop between two session states: the
events grow by non-terminal event types only, the deduplication set only
grows, duplicate-freeness of the deduplication set is preserved, and the
number of `TOOL_CALL` events grows exactly with the deduplication set. -/
def Evolves (s₀ s₁ : SessionState) : Prop :=
  (∃ l, s₁.events = s₀.events ++ l ∧ ∀ ev ∈ l,
      ev.type = EventType.agent_change ∨ ev.type = EventType.tool_call ∨
      ev.type = EventType.tool_result ∨ ev.type = EventType.delta)
  ∧ (∃ m, s₁.emitted_tool_calls = s₀.emitted_tool_calls ++ m)
  ∧ (s₀.emitted_tool_calls.Nodup → s₁.emitted_tool_calls.Nodup)
  ∧ (s₁.events.countP isToolCallEv + s₀.emitted_tool_calls.length
      = s₀.events.countP isToolCallEv + s₁.emitted_tool_calls.length)

/-! ## General lemmas about the dict operations -/

lemma dictGet?_cons {α : Type} (k₀ : String) (v₀ : α) (d : List (String × α)) (k : String) :
    dictGet? ((k₀, v₀) :: d) k = if k₀ = k then some v₀ else dictGet? d k := by
  by_cases h : k₀ = k <;> simp [dictGet?, List.find?_cons, h]

lemma dictGet?_dictSet_self {α : Type} (d : List (String × α)) (k : String) (v : α) :
    dictGet? (dictSet d k v) k = some v := by
  induction d with
  | nil => simp [dictSet, dictGet?_cons]
  | cons hd tl ih =>
    obtain ⟨k₀, v₀⟩ := hd
    by_cases h : k₀ = k <;> simp [dictSet, h, dictGet?_cons, ih]

lemma dictGet?_dictSet_ne {α : Type} (d : List (String × α)) (k : String) (v : α) (k' : String)
    (h : k' ≠ k) : dictGet? (dictSet d k v) k' = dictGet? d k' := by
  have h' : ¬ (k = k') := fun hh => h hh.symm
  induction d with
  | nil => simp [dictSet, dictGet?_cons, h']
  | cons hd tl ih =>
    obtain ⟨k₀, v₀⟩ := hd
    by_cases hk : k₀ = k
    · subst hk
      simp [dictSet, dictGet?_cons, h']
    · simp [dictSet, hk, dictGet?_cons, ih]

lemma dictGet?_eq_none {α : Type} (l : List (String × α)) (k : String)
    (h : k ∉ l.map Prod.fst) : dictGet? l k = none := by
  induction l with
  | nil => rfl
  | cons hd tl ih =>
    obtain ⟨k₀, v₀⟩ := hd
    simp only [List.map_cons, List.mem_cons, not_or] at h
    have h' : ¬ (k₀ = k) := fun hh => h.1 hh.symm
    simp [dictGet?_cons, h', ih h.2]

lemma dictGet?_foldl_dictSet {α : Type} (data init : List (String × α)) (k : String)
    (h : (data.map Prod.fst).Nodup) :
    dictGet? (data.foldl (fun d kv => dictSet d kv.1 kv.2) init) k
      = ((dictGet? data k).map some).getD (dictGet? init k) := by
  induction data generalizing init with
  | nil => simp [dictGet?]
  | cons hd tl ih =>
    obtain ⟨k₀, v₀⟩ := hd
    simp only [List.map_cons, List.nodup_cons] at h
    obtain ⟨hk₀, htl⟩ := h
    rw [List.foldl_cons, ih _ htl]
    by_cases hk : k₀ = k
    · subst hk
      have hnone : dictGet? tl k₀ = none := dictGet?_eq_none tl k₀ hk₀
      simp [hnone, dictGet?_cons, dictGet?_dictSet_self]
    · have h' : k ≠ k₀ := fun hh => hk hh.symm
      rw [dictGet?_dictSet_ne init k₀ v₀ k h']
      simp [dictGet?_cons, hk]

lemma countP_eq_of_nodup {α : Type} [DecidableEq α] (l : List α) (hl : l.Nodup) (a : α) :
    l.countP (fun y => y = a) ≤ 1 := by
  induction l with
  | nil => simp
  | cons x xs ih =>
    obtain ⟨hx, hxs⟩ := List.nodup_cons.mp hl
    by_cases hxa : x = a
    · subst hxa
      have : xs.countP (fun y => y = x) = 0 := by
        apply List.countP_eq_zero.mpr
        intro y hy
        simp only [decide_eq_true_eq]
        exact fun hyx => hx (hyx ▸ hy)
      simp [List.countP_cons, this]
    · have := ih hxs
      simp only [List.countP_cons, hxa]
      simpa using this

/-! ## The router: one handoff, fully characterized -/

lemma on_task_handoff_master (now : String) (ctx : WorkforceContext) (msg : TaskMessage)
    (fa ta : String) :
    (on_task_handoff now ctx msg fa ta).current_agent = ta
  ∧ (on_task_handoff now ctx msg fa ta).trace_steps
      = ctx.trace_steps ++ [⟨now, fa, "handoff", ta ++ " (kind=" ++ msg.kind ++ ")"⟩]
  ∧ (on_task_handoff now ctx msg fa ta).company_data = ctx.company_data
  ∧ (on_task_handoff now ctx msg fa ta).task.goal = ctx.task.goal
  ∧ (on_task_handoff now ctx msg fa ta).task.task_type = ctx.task.task_type
  ∧ (on_task_handoff now ctx msg fa ta).task.iteration = ctx.task.iteration
  ∧ (on_task_handoff now ctx msg fa ta).task.max_iterations = ctx.task.max_iterations
  ∧ (on_task_handoff now ctx msg fa ta).task.artifacts
      = dictSet ctx.task.artifacts (artifactKey fa ctx.task.iteration)
          ⟨msg.kind, decodedPayload msg⟩
  ∧ (on_task_handoff now ctx msg fa ta).task.status = statusAfter msg ctx.task.status
  ∧ (on_task_handoff now ctx msg fa ta).task.feedback
      = ctx.task.feedback ++ feedbackAdded msg := by
  obtain ⟨kind, pj⟩ := msg
  unfold on_task_handoff statusAfter feedbackAdded verdictUpper decodedPayload artifactKey
    WorkforceContext.log_step
  by_cases hk : kind = "evaluation"
  · simp only [hk, if_true, ite_true]
    cases hp : json_loads pj with
    | none => simp [dictGet?_cons, dictGet?]
    | some p =>
      cases p with
      | obj fields =>
        cases hv : dictGet? fields "verdict" with
        | none => simp [hv]
        | some v =>
          cases v with
          | str s =>
            by_cases hrev : strUpper s = "REVISE"
            · simp only [hv, hrev, if_true, ite_true]
              cases hf : dictGet? fields "feedback" with
              | none => simp [hf]
              | some fb =>
                by_cases ht : fb.truthy <;> simp [hf, ht]
            · by_cases hpass : strUpper s = "PASS" <;> simp [hv, hrev, hpass]
          | null => simp [hv]
          | bool b => simp [hv]
          | num n => simp [hv]
          | arr l => simp [hv]
          | obj f₂ => simp [hv]
      | null => simp
      | bool b => simp
      | num n => simp
      | arr l => simp
      | str s => simp
  · simp [hk]

/-! ## Run-loop evolution lemmas -/

lemma evolves_refl (st : SessionState) : Evolves st st :=
  ⟨⟨[], by simp, by simp⟩, ⟨[], by simp⟩, id, rfl⟩

lemma evolves_trans {a b c : SessionState} (h₁ : Evolves a b) (h₂ : Evolves b c) :
    Evolves a c := by
  obtain ⟨⟨l₁, he₁, ht₁⟩, ⟨m₁, hm₁⟩, hn₁, hc₁⟩ := h₁
  obtain ⟨⟨l₂, he₂, ht₂⟩, ⟨m₂, hm₂⟩, hn₂, hc₂⟩ := h₂
  refine ⟨⟨l₁ ++ l₂, by simp [he₂, he₁], ?_⟩, ⟨m₁ ++ m₂, by simp [hm₂, hm₁]⟩,
    fun h => hn₂ (hn₁ h), by omega⟩
  intro ev hev
  rcases List.mem_append.mp hev with h | h
  exacts [ht₁ ev h, ht₂ ev h]

lemma evolves_emit_aux (s₀ s₁ : SessionState) (t : EventType) (agent : String)
    (data : List (String × Json))
    (hev : s₁.events = s₀.events ++ [⟨t, "", agent, data⟩])
    (hem : s₁.emitted_tool_calls = s₀.emitted_tool_calls)
    (ht : t = EventType.agent_change ∨ t = EventType.tool_result ∨ t = EventType.delta) :
    Evolves s₀ s₁ := by
  have htc : isToolCallEv ⟨t, "", agent, data⟩ = false := by
    rcases ht with h | h | h <;> simp [isToolCallEv, h]
  refine ⟨⟨[⟨t, "", agent, data⟩], hev, ?_⟩, ⟨[], by simp [hem]⟩, by rw [hem]; exact id, ?_⟩
  · intro ev hevm
    simp only [List.mem_singleton] at hevm
    subst hevm
    rcases ht with h | h | h <;> simp [h]
  · rw [hev, hem]
    simp [List.countP_append, htc]

lemma evolves_same (s₀ s₁ : SessionState) (hev : s₁.events = s₀.events)
    (hem : s₁.emitted_tool_calls = s₀.emitted_tool_calls) : Evolves s₀ s₁ :=
  ⟨⟨[], by simp [hev], by simp⟩, ⟨[], by simp [hem]⟩, by rw [hem]; exact id, by rw [hev, hem]⟩

lemma evolves_stepSync (st : SessionState) : Evolves st (stepSync st) := by
  unfold stepSync
  by_cases h : st.context.current_agent ≠ st.current_agent
  · rw [if_pos h]
    exact evolves_emit_aux st _ _ _ _ rfl rfl (Or.inl rfl)
  · rw [if_neg h]
    exact evolves_refl st

lemma evolves_stepSignal (st st' : SessionState) (sig : RawSignal)
    (h : stepSignal st sig = .ok st') : Evolves st st' := by
  cases sig with
  | toolCall call_id name =>
    simp only [stepSignal] at h
    split at h
    · obtain rfl := Except.ok.inj h
      exact evolves_same st _ rfl rfl
    · obtain rfl := Except.ok.inj h
      rename_i hdup
      refine ⟨⟨_, rfl, ?_⟩, ⟨_, rfl⟩, ?_, ?_⟩
      · intro ev hev
        simp only [List.mem_singleton] at hev
        subst hev
        simp
      · intro hnd
        simp only [List.any_eq_true, decide_eq_true_eq, not_exists, not_and] at hdup
        simp only [SessionState.emit]
        rw [List.nodup_append]
        refine ⟨hnd, List.nodup_singleton _, ?_⟩
        intro x hx
        simp only [List.mem_singleton]
        intro hxe
        exact hdup x hx hxe
      · simp only [SessionState.emit, List.countP_append, List.length_append]
        simp [isToolCallEv]
        omega
  | toolResult =>
    simp only [stepSignal] at h
    obtain rfl := Except.ok.inj h
    exact evolves_emit_aux st _ _ _ _ rfl rfl (Or.inr (Or.inl rfl))
  | textDelta content =>
    simp only [stepSignal] at h
    split at h
    · obtain rfl := Except.ok.inj h
      exact evolves_refl st
    · obtain rfl := Except.ok.inj h
      exact evolves_emit_aux st _ _ _ _ rfl rfl (Or.inr (Or.inr rfl))
  | handoffReq now message fa ta =>
    simp only [stepSignal] at h
    split at h
    · obtain rfl := Except.ok.inj h
      exact evolves_same st _ rfl rfl
    · exact absurd h (by simp)
  | other =>
    simp only [stepSignal] at h
    obtain rfl := Except.ok.inj h
    exact evolves_refl st

lemma processSignals_evolves (sigs : List RawSignal) (st : SessionState) :
    Evolves st (processSignals st sigs).1 := by
  induction sigs generalizing st with
  | nil => exact evolves_refl st
  | cons sig rest ih =>
    unfold processSignals
    cases hs : stepSignal (stepSync st) sig with
    | ok st₂ =>
      simp only [hs]
      exact evolves_trans (evolves_trans (evolves_stepSync st)
        (evolves_stepSignal _ _ _ hs)) (ih st₂)
    | error e =>
      simp only [hs]
      exact evolves_stepSync st


/-! ## Exit-path lemmas -/

lemma startState_events (message : String) :
    (startState message).events
      = [⟨EventType.start, "", "founder", [("message", Json.str "Starting agent workflow...")]⟩] := rfl

lemma startState_emitted (message : String) :
    (startState message).emitted_tool_calls = [] := rfl

lemma errorExit_types (st : SessionState) (m : String) :
    typesOf (errorExit st m) = typesOf st ++ [EventType.error, EventType.artifacts_saved] := by
  simp [typesOf, errorExit, SessionState.emit]

lemma errorExit_emitted (st : SessionState) (m : String) :
    (errorExit st m).emitted_tool_calls = st.emitted_tool_calls := rfl

lemma errorExit_countP (st : SessionState) (m : String) :
    (errorExit st m).events.countP isToolCallEv = st.events.countP isToolCallEv := by
  simp [errorExit, SessionState.emit, List.countP_append, isToolCallEv]

lemma completeExit_types (st : SessionState) (fo : Option String) :
    typesOf (completeExit st fo) = typesOf st ++ [EventType.complete, EventType.artifacts_saved] := by
  simp [typesOf, completeExit, SessionState.emit]

lemma completeExit_emitted (st : SessionState) (fo : Option String) :
    (completeExit st fo).emitted_tool_calls = st.emitted_tool_calls := rfl

lemma completeExit_countP (st : SessionState) (fo : Option String) :
    (completeExit st fo).events.countP isToolCallEv = st.events.countP isToolCallEv := by
  simp [completeExit, SessionState.emit, List.countP_append, isToolCallEv]

lemma processSignals_append_unauth (now : String) (msg : TaskMessage) (fa ta : String)
    (h : ta ∉ authorizedTargets fa) (sigs : List RawSignal) (st : SessionState) :
    (processSignals st (sigs ++ [RawSignal.handoffReq now msg fa ta])).2.isSome := by
  induction sigs generalizing st with
  | nil =>
    have hsig : stepSignal (stepSync st) (RawSignal.handoffReq now msg fa ta)
        = .error (.handoffViolation fa ta) := by
      simp [stepSignal, attemptTransfer, h]
    simp [processSignals, hsig]
  | cons sig rest ih =>
    simp only [List.cons_append, processSignals]
    cases hs : stepSignal (stepSync st) sig with
    | ok st₂ =>
      simpa using ih st₂
    | error e =>
      simp

/-! ## Claim theorems -/

/-- C1: a transfer attempt to a target outside the sender's authorized set
fails with `HandoffViolation`, and this is fatal for the run (the run ends
with the `error` terminal event, never `complete`); an authorized attempt
succeeds, sets the current role to the target and appends exactly one trace
step. -/
theorem attemptTransfer_authorization (now : String) (ctx : WorkforceContext)
    (msg : TaskMessage) (fa ta : String) :
    (ta ∉ authorizedTargets fa →
      attemptTransfer now ctx msg fa ta = .error (.handoffViolation fa ta))
  ∧ (ta ∈ authorizedTargets fa →
      ∃ ctx₂, attemptTransfer now ctx msg fa ta = .ok ctx₂
        ∧ ctx₂.current_agent = ta
        ∧ ctx₂.trace_steps.length = ctx.trace_steps.length + 1)
  ∧ (∀ message signals outcome, ta ∉ authorizedTargets fa →
      ∃ l, typesOf (run_stream message (signals ++ [RawSignal.handoffReq now msg fa ta]) outcome)
          = EventType.start :: l ++ [EventType.error, EventType.artifacts_saved]
        ∧ EventType.complete ∉ l) := by
  refine ⟨?_, ?_, ?_⟩
  · intro h
    simp [attemptTransfer, h]
  · intro h
    refine ⟨on_task_handoff now ctx msg fa ta, by simp [attemptTransfer, h],
      (on_task_handoff_master now ctx msg fa ta).1, ?_⟩
    rw [(on_task_handoff_master now ctx msg fa ta).2.1]
    simp
  · intro message signals outcome h
    have herr := processSignals_append_unauth now msg fa ta h signals (startState message)
    rcases hps : processSignals (startState message) (signals ++ [RawSignal.handoffReq now msg fa ta])
      with ⟨stp, oe⟩
    rw [hps] at herr
    cases oe with
    | none => simp at herr
    | some e =>
      have hev := processSignals_evolves (signals ++ [RawSignal.handoffReq now msg fa ta])
        (startState message)
      rw [hps] at hev
      dsimp only at hev
      obtain ⟨⟨l, hl, hlt⟩, _, _, _⟩ := hev
      have hrun : run_stream message (signals ++ [RawSignal.handoffReq now msg fa ta]) outcome
          = errorExit stp (handoffErrorMsg e) := by
        simp [run_stream, hps]
      refine ⟨l.map SessionEvent.type, ?_, ?_⟩
      · rw [hrun, errorExit_types]
        have : typesOf stp = EventType.start :: l.map SessionEvent.type := by
          simp [typesOf, hl, startState_events]
        rw [this]
      · intro hmem
        obtain ⟨ev, hev₂, het⟩ := List.mem_map.mp hmem
        rcases hlt ev hev₂ with hh | hh | hh | hh <;> rw [hh] at het <;> simp at het

/-- C1 witness: `evaluator → marketing_head` is unauthorized and fails;
`founder → evaluator` is authorized and succeeds with one appended trace
step; the run containing the unauthorized attempt ends in
`error, artifacts_saved`. -/
theorem attemptTransfer_authorization_witness :
    attemptTransfer "t0" {} ⟨"task", "\x7b\x7d"⟩ "evaluator" "marketing_head"
      = .error (.handoffViolation "evaluator" "marketing_head")
  ∧ (∃ ctx₂, attemptTransfer "t0" {} ⟨"task", "\x7b\x7d"⟩ "founder" "evaluator" = .ok ctx₂
      ∧ ctx₂.current_agent = "evaluator" ∧ ctx₂.trace_steps.length = 0 + 1)
  ∧ (∃ l, typesOf (run_stream "hi" ([] ++ [RawSignal.handoffReq "t0" ⟨"task", "\x7b\x7d"⟩
        "evaluator" "marketing_head"]) (RunOutcome.success none))
      = EventType.start :: l ++ [EventType.error, EventType.artifacts_saved]
    ∧ EventType.complete ∉ l) := by
  refine ⟨?_, ?_, ?_⟩
  · exact (attemptTransfer_authorization "t0" {} ⟨"task", "\x7b\x7d"⟩ "evaluator"
      "marketing_head").1 (by decide)
  · exact (attemptTransfer_authorization "t0" {} ⟨"task", "\x7b\x7d"⟩ "founder"
      "evaluator").2.1 (by decide)
  · exact (attemptTransfer_authorization "t0" {} ⟨"task", "\x7b\x7d"⟩ "evaluator"
      "marketing_head").2.2 "hi" [] (RunOutcome.success none) (by decide)

/-- C2 counterexample: after the reviewer delivers a `REVISE` evaluation
envelope (with feedback) to the orchestrator, the feedback list has one
entry and the status is `needs_revision`, but `iteration` is still `0`,
not `1` as claimed — the code never increments it. -/
theorem revise_leaves_iteration_zero :
    (on_task_handoff "t0" {} ⟨"evaluation",
        "\x7b\"verdict\": \"REVISE\", \"feedback\": \"tone mismatch\"\x7d"⟩
      "evaluator" "founder").task.status = Status.needs_revision
  ∧ (on_task_handoff "t0" {} ⟨"evaluation",
        "\x7b\"verdict\": \"REVISE\", \"feedback\": \"tone mismatch\"\x7d"⟩
      "evaluator" "founder").task.feedback.length = 1
  ∧ (on_task_handoff "t0" {} ⟨"evaluation",
        "\x7b\"verdict\": \"REVISE\", \"feedback\": \"tone mismatch\"\x7d"⟩
      "evaluator" "founder").task.iteration = 0
  ∧ (0 : Int) ≠ 1 :=
  ⟨rfl, rfl, rfl, by decide⟩

/-- C2 (amended): `iteration` starts at 0 and is preserved by every handoff
— no code path increments it, so it is still 0 (with one feedback entry)
after a `REVISE` evaluation reaches the orchestrator. -/
theorem iteration_never_incremented :
    ({} : TaskState).iteration = 0
  ∧ (∀ now ctx msg fa ta,
      (on_task_handoff now ctx msg fa ta).task.iteration = ctx.task.iteration) :=
  ⟨rfl, fun now ctx msg fa ta => (on_task_handoff_master now ctx msg fa ta).2.2.2.2.2.1⟩

/-- C3 counterexample: from the `done` status, a later `REVISE` evaluation
moves the status back to `needs_revision` — `done` is not mechanically
terminal. -/
theorem done_not_terminal :
    (on_task_handoff "t0" { task := { status := Status.done } }
        ⟨"evaluation", "\x7b\"verdict\": \"REVISE\"\x7d"⟩ "evaluator" "founder").task.status
      = Status.needs_revision
  ∧ Status.needs_revision ≠ Status.done :=
  ⟨rfl, by decide⟩

/-- C3 (amended): the status starts at `in_progress`; a handoff rewrites it
as a function of the message only — `REVISE` yields `needs_revision` (and
appends the truthy feedback), `PASS` yields `done`, anything else leaves it
unchanged — irrespective of the previous status, so `done` is not enforced
as terminal by the router. -/
theorem status_machine_characterization :
    ({} : TaskState).status = Status.in_progress
  ∧ (∀ now ctx msg fa ta,
      (on_task_handoff now ctx msg fa ta).task.status = statusAfter msg ctx.task.status)
  ∧ (∀ now ctx msg fa ta,
      (on_task_handoff now ctx msg fa ta).task.feedback
        = ctx.task.feedback ++ feedbackAdded msg) :=
  ⟨rfl,
   fun now ctx msg fa ta => (on_task_handoff_master now ctx msg fa ta).2.2.2.2.2.2.2.2.1,
   fun now ctx msg fa ta => (on_task_handoff_master now ctx msg fa ta).2.2.2.2.2.2.2.2.2⟩

/-- C4 counterexample: two successive deliveries by `marketing_head` (the
iteration never advancing) collide on the key `marketing_head_v0`: the
second delivery replaces the first and the artifact map still has a single
entry — the mapping is not append-only. -/
theorem artifacts_overwritten :
    (on_task_handoff "t1"
        (on_task_handoff "t0" {} ⟨"result", "\x7b\"x\": 1\x7d"⟩ "marketing_head" "seo_analyst")
        ⟨"result", "\x7b\"x\": 2\x7d"⟩ "marketing_head" "founder").task.artifacts
      = [("marketing_head_v0", ⟨"result", Json.obj [("x", Json.num 2)]⟩)]
  ∧ Json.obj [("x", Json.num 2)] ≠ Json.obj [("x", Json.num 1)] :=
  ⟨rfl, by simp⟩

/-- C4 (amended): every transfer stores the delivered envelope under
`"{fromRole}_v{iteration}"` by dict assignment: a fresh key is appended and
bindings at other keys are untouched, but a second delivery by the same
role at the same iteration value (which never advances) replaces the value
under the existing key. -/
theorem artifact_store_characterization :
    (∀ now ctx msg fa ta,
      (on_task_handoff now ctx msg fa ta).task.artifacts
        = dictSet ctx.task.artifacts (artifactKey fa ctx.task.iteration)
            ⟨msg.kind, decodedPayload msg⟩)
  ∧ (∀ now ctx msg fa ta,
      dictGet? (on_task_handoff now ctx msg fa ta).task.artifacts
          (artifactKey fa ctx.task.iteration)
        = some ⟨msg.kind, decodedPayload msg⟩)
  ∧ (∀ now ctx msg fa ta k, k ≠ artifactKey fa ctx.task.iteration →
      dictGet? (on_task_handoff now ctx msg fa ta).task.artifacts k
        = dictGet? ctx.task.artifacts k) := by
  refine ⟨fun now ctx msg fa ta => (on_task_handoff_master now ctx msg fa ta).2.2.2.2.2.2.2.1,
    ?_, ?_⟩
  · intro now ctx msg fa ta
    rw [(on_task_handoff_master now ctx msg fa ta).2.2.2.2.2.2.2.1]
    exact dictGet?_dictSet_self _ _ _
  · intro now ctx msg fa ta k hk
    rw [(on_task_handoff_master now ctx msg fa ta).2.2.2.2.2.2.2.1]
    exact dictGet?_dictSet_ne _ _ _ _ hk

/-- C4 witness: a delivery under the fresh key `marketing_head_v0` is
retrievable, and an unrelated key (`other`) is untouched. -/
theorem artifact_store_characterization_witness :
    dictGet? (on_task_handoff "t0" {} ⟨"result", "\x7b\x7d"⟩ "marketing_head" "founder").task.artifacts
        "marketing_head_v0" = some ⟨"result", Json.obj []⟩
  ∧ dictGet? (on_task_handoff "t0" {} ⟨"result", "\x7b\x7d"⟩ "marketing_head" "founder").task.artifacts
        "other" = none := by
  constructor
  · exact (artifact_store_characterization.2.1 "t0" {} ⟨"result", "\x7b\x7d"⟩
      "marketing_head" "founder")
  · exact (artifact_store_characterization.2.2 "t0" {} ⟨"result", "\x7b\x7d"⟩
      "marketing_head" "founder" "other" (by decide))

/-- C5 counterexample: an evaluation payload that decodes to an object with
no `verdict` field (`"{}"`) leaves the status unchanged, but the stored
artifact holds the decoded object itself, not the `{"raw": ...}` sentinel
the claim requires for every in-scope payload. -/
theorem verdictless_payload_not_sentinel :
    dictGet? (on_task_handoff "t0" {} ⟨"evaluation", "\x7b\x7d"⟩ "evaluator" "founder").task.artifacts
        "evaluator_v0" = some ⟨"evaluation", Json.obj []⟩
  ∧ Json.obj [] ≠ Json.obj [("raw", Json.str "\x7b\x7d")]
  ∧ (on_task_handoff "t0" {} ⟨"evaluation", "\x7b\x7d"⟩ "evaluator" "founder").task.status
      = Status.in_progress :=
  ⟨rfl, by simp, rfl⟩

/-- C5 (amended): evaluation handling never raises and never changes the
status when the payload is unusable; an undecodable payload is stored under
the `raw` sentinel key, while a payload that decodes but has no `verdict`
field is stored as the decoded value itself. -/
theorem evaluation_degrades_gracefully (now : String) (ctx : WorkforceContext)
    (s fa ta : String) :
    (json_loads s = none →
      (on_task_handoff now ctx ⟨"evaluation", s⟩ fa ta).task.status = ctx.task.status
      ∧ dictGet? (on_task_handoff now ctx ⟨"evaluation", s⟩ fa ta).task.artifacts
          (artifactKey fa ctx.task.iteration)
        = some ⟨"evaluation", Json.obj [("raw", Json.str s)]⟩)
  ∧ (∀ p, json_loads s = some p → hasVerdict p = false →
      (on_task_handoff now ctx ⟨"evaluation", s⟩ fa ta).task.status = ctx.task.status
      ∧ dictGet? (on_task_handoff now ctx ⟨"evaluation", s⟩ fa ta).task.artifacts
          (artifactKey fa ctx.task.iteration)
        = some ⟨"evaluation", p⟩) := by
  have hm := on_task_handoff_master now ctx ⟨"evaluation", s⟩ fa ta
  constructor
  · intro hn
    have hdp : decodedPayload ⟨"evaluation", s⟩ = Json.obj [("raw", Json.str s)] := by
      simp [decodedPayload, hn]
    constructor
    · rw [hm.2.2.2.2.2.2.2.2.1]
      simp [statusAfter, verdictUpper, hdp, dictGet?_cons, dictGet?]
    · rw [hm.2.2.2.2.2.2.2.1, hdp]
      exact dictGet?_dictSet_self _ _ _
  · intro p hp hv
    have hdp : decodedPayload ⟨"evaluation", s⟩ = p := by
      simp [decodedPayload, hp]
    constructor
    · rw [hm.2.2.2.2.2.2.2.2.1]
      cases p with
      | obj fields =>
        have hvn : dictGet? fields "verdict" = none := by
          cases hdg : dictGet? fields "verdict" with
          | none => rfl
          | some v =>
            rw [hasVerdict, hdg] at hv
            simp at hv
        simp [statusAfter, verdictUpper, hdp, hvn]
      | null => simp [statusAfter, verdictUpper, hdp]
      | bool b => simp [statusAfter, verdictUpper, hdp]
      | num n => simp [statusAfter, verdictUpper, hdp]
      | str s₂ => simp [statusAfter, verdictUpper, hdp]
      | arr l => simp [statusAfter, verdictUpper, hdp]
    · rw [hm.2.2.2.2.2.2.2.1, hdp]
      exact dictGet?_dictSet_self _ _ _

/-- C5 witness: a non-JSON payload is stored under the `raw` sentinel with
the status unchanged; a decoded verdict-less object (`"{}"`) is stored
as-is with the status unchanged. -/
theorem evaluation_degrades_gracefully_witness :
    ((on_task_handoff "t0" {} ⟨"evaluation", "oops"⟩ "evaluator" "founder").task.status
        = Status.in_progress
      ∧ dictGet? (on_task_handoff "t0" {} ⟨"evaluation", "oops"⟩ "evaluator" "founder").task.artifacts
          "evaluator_v0" = some ⟨"evaluation", Json.obj [("raw", Json.str "oops")]⟩)
  ∧ ((on_task_handoff "t0" {} ⟨"evaluation", "\x7b\x7d"⟩ "evaluator" "founder").task.status
        = Status.in_progress
      ∧ dictGet? (on_task_handoff "t0" {} ⟨"evaluation", "\x7b\x7d"⟩ "evaluator" "founder").task.artifacts
          "evaluator_v0" = some ⟨"evaluation", Json.obj []⟩) := by
  constructor
  · exact (evaluation_degrades_gracefully "t0" {} "oops" "evaluator" "founder").1 rfl
  · exact (evaluation_degrades_gracefully "t0" {} "\x7b\x7d" "evaluator" "founder").2
      (Json.obj []) rfl rfl

/-- C6: every run — whatever the signals and however the runtime ends —
emits `START`, then only non-terminal events, then exactly one terminal
`COMPLETE` or `ERROR` followed by exactly one `ARTIFACTS_SAVED`, and the
per-run `events.jsonl` log is non-empty. -/
theorem run_always_terminal (message : String) (signals : List RawSignal)
    (outcome : RunOutcome) :
    (∃ l t, typesOf (run_stream message signals outcome)
        = EventType.start :: l ++ [t, EventType.artifacts_saved]
      ∧ (t = EventType.complete ∨ t = EventType.error)
      ∧ ∀ x ∈ l, x ≠ EventType.start ∧ x ≠ EventType.complete ∧ x ≠ EventType.error
          ∧ x ≠ EventType.artifacts_saved)
  ∧ (typesOf (run_stream message signals outcome)).countP
      (fun t => t = EventType.artifacts_saved) = 1
  ∧ events_jsonl (run_stream message signals outcome) ≠ [] := by
  rcases hps : processSignals (startState message) signals with ⟨stp, oe⟩
  have hev := processSignals_evolves signals (startState message)
  rw [hps] at hev
  dsimp only at hev
  obtain ⟨⟨l, hl, hlt⟩, _, _, _⟩ := hev
  have hstp : typesOf stp = EventType.start :: l.map SessionEvent.type := by
    simp [typesOf, hl, startState_events]
  have hmid : ∀ x ∈ l.map SessionEvent.type,
      x ≠ EventType.start ∧ x ≠ EventType.complete ∧ x ≠ EventType.error
        ∧ x ≠ EventType.artifacts_saved := by
    intro x hx
    obtain ⟨ev, hev₂, rfl⟩ := List.mem_map.mp hx
    rcases hlt ev hev₂ with h | h | h | h <;> simp [h]
  have hsplit : ∃ t, (t = EventType.complete ∨ t = EventType.error)
      ∧ typesOf (run_stream message signals outcome)
        = typesOf stp ++ [t, EventType.artifacts_saved] := by
    cases oe with
    | some e =>
      exact ⟨EventType.error, Or.inr rfl, by simp [run_stream, hps, errorExit_types]⟩
    | none =>
      cases outcome with
      | failure m => exact ⟨EventType.error, Or.inr rfl, by simp [run_stream, hps, errorExit_types]⟩
      | success fo =>
        exact ⟨EventType.complete, Or.inl rfl, by simp [run_stream, hps, completeExit_types]⟩
  obtain ⟨t, ht, htypes⟩ := hsplit
  have hne : typesOf (run_stream message signals outcome) ≠ [] := by
    rw [htypes]
    simp
  refine ⟨⟨l.map SessionEvent.type, t, by rw [htypes, hstp], ht, hmid⟩, ?_, ?_⟩
  · rw [htypes, hstp]
    have hml : (l.map SessionEvent.type).countP (fun x => x = EventType.artifacts_saved) = 0 := by
      apply List.countP_eq_zero.mpr
      intro x hx
      simp only [decide_eq_true_eq]
      exact (hmid x hx).2.2.2
    rcases ht with rfl | rfl <;>
      simp [List.countP_append, List.countP_cons, hml]
  · rw [events_jsonl, Ne, List.map_eq_nil_iff]
    intro hevnil
    apply hne
    rw [typesOf, hevnil]
    rfl

/-- C7: tool-call emission is deduplicated by effective call id: over any
run, the recorded ids are pairwise distinct — so a given `call_id` accounts
for at most one `TOOL_CALL` event even when signals repeat it — and the
number of `TOOL_CALL` events equals the number of recorded ids. -/
theorem tool_call_dedup (message : String) (signals : List RawSignal)
    (outcome : RunOutcome) (cid : String) :
    (run_stream message signals outcome).emitted_tool_calls.countP
        (fun y => y = EffId.strId cid) ≤ 1
  ∧ (run_stream message signals outcome).events.countP isToolCallEv
      = (run_stream message signals outcome).emitted_tool_calls.length := by
  rcases hps : processSignals (startState message) signals with ⟨stp, oe⟩
  have hev := processSignals_evolves signals (startState message)
  rw [hps] at hev
  dsimp only at hev
  obtain ⟨_, _, hnd, hcount⟩ := hev
  have h₀ : (startState message).emitted_tool_calls = [] := rfl
  have h₁ : (startState message).events.countP isToolCallEv = 0 := rfl
  have hstp_nodup : stp.emitted_tool_calls.Nodup := by
    apply hnd
    rw [h₀]
    exact List.nodup_nil
  have hstp_count : stp.events.countP isToolCallEv = stp.emitted_tool_calls.length := by
    rw [h₀, h₁] at hcount
    simpa using hcount
  have hrun_emitted : (run_stream message signals outcome).emitted_tool_calls
      = stp.emitted_tool_calls := by
    cases oe with
    | some e => simp [run_stream, hps, errorExit_emitted]
    | none =>
      cases outcome with
      | failure m => simp [run_stream, hps, errorExit_emitted]
      | success fo => simp [run_stream, hps, completeExit_emitted]
  have hrun_count : (run_stream message signals outcome).events.countP isToolCallEv
      = stp.events.countP isToolCallEv := by
    cases oe with
    | some e => simp [run_stream, hps, errorExit_countP]
    | none =>
      cases outcome with
      | failure m => simp [run_stream, hps, errorExit_countP]
      | success fo => simp [run_stream, hps, completeExit_countP]
  constructor
  · rw [hrun_emitted]
    exact countP_eq_of_nodup _ hstp_nodup _
  · rw [hrun_emitted, hrun_count, hstp_count]

/-- C8: the cost estimator is total: for every token count and every model
string it returns the linear per-million-token cost of the model's pricing
row — falling back to the documented default row `gpt-4.1` when the model
is unknown — rounded to six decimals, never `None`, and it reports the
resolved model name. -/
theorem estimate_cost_formula (input_tokens output_tokens : ℕ) (model : String) :
    estimate_cost input_tokens output_tokens model
      = ⟨(if (dictGet? MODEL_PRICING model).isSome then model else DEFAULT_MODEL),
         some (pyRound6
           ((input_tokens : ℚ) / 1000000
              * ((dictGet? MODEL_PRICING model).getD ⟨2.00, 8.00⟩).input
            + (output_tokens : ℚ) / 1000000
              * ((dictGet? MODEL_PRICING model).getD ⟨2.00, 8.00⟩).output))⟩
  ∧ dictGet? MODEL_PRICING DEFAULT_MODEL = some ⟨2.00, 8.00⟩ := by
  constructor
  · cases h : dictGet? MODEL_PRICING model with
    | some pricing => simp [estimate_cost, h]
    | none =>
      have hd : dictGet? MODEL_PRICING DEFAULT_MODEL = some ⟨2.00, 8.00⟩ := rfl
      simp [estimate_cost, h, hd]
  · rfl

lemma mapM_str_of_all (elems : List Json)
    (h : elems.all (fun e => match e with | .str _ => true | _ => false) = true) :
    ∃ l, elems.mapM (fun e => match e with | .str s => some s | _ => none) = some l := by
  induction elems with
  | nil => exact ⟨[], rfl⟩
  | cons e tl ih =>
    simp only [List.all_cons, Bool.and_eq_true] at h
    obtain ⟨l, hl⟩ := ih h.2
    cases e with
    | str s =>
      refine ⟨s :: l, ?_⟩
      rw [List.mapM_cons, hl]
      rfl
    | null => simp at h
    | bool b => simp at h
    | num n => simp at h
    | arr a => simp at h
    | obj o => simp at h

/-- C9 counterexample: the static `HIERARCHY` satisfies the claimed
invariants (every referenced target exists, the entry role is an
orchestrator), so the claim predicts construction succeeds for every tenant
configuration — yet `create_workforce` fails with a `TypeError` (not a
`ConfigurationError`; no such validation or error exists in the code) on a
tenant whose `products` list holds a non-string. -/
theorem create_workforce_fails_without_config_error :
    hierarchyTargetsValid = true
  ∧ (dictGet? HIERARCHY "founder").map RoleInfo.role = some "Orchestrator"
  ∧ create_workforce [("company", Json.obj [("products", Json.arr [Json.num 1])])]
      = .error .typeError :=
  ⟨rfl, rfl, rfl⟩

/-- C9 (amended): `create_workforce` performs no hierarchy validation and
can never signal a `ConfigurationError`; independently, the fixed
`HIERARCHY` satisfies the would-be invariants (all transfer targets exist;
the entry role `founder` has type `Orchestrator`), and construction
succeeds — returning the seven agents with their registered handoff
targets and `founder` as entry agent — for every tenant configuration with
well-formed company fields (it raises `TypeError`/`AttributeError`, not
`ConfigurationError`, on malformed ones). -/
theorem create_workforce_characterization :
    hierarchyTargetsValid = true
  ∧ (dictGet? HIERARCHY "founder").map RoleInfo.role = some "Orchestrator"
  ∧ (∀ cd, companyWellFormed cd = true →
      create_workforce cd = .ok
        { entry_agent := "founder",
          all_agents := AGENT_IDS.map
            (fun a => (a, ⟨((dictGet? HIERARCHY a).map RoleInfo.name).getD a,
                           authorizedTargets a⟩)),
          hierarchy := HIERARCHY }) := by
  refine ⟨rfl, rfl, ?_⟩
  intro cd hwf
  rw [companyWellFormed] at hwf
  unfold create_workforce
  cases hc : (dictGet? cd "company").getD (Json.obj []) with
  | obj fields =>
    rw [hc] at hwf
    dsimp only at hwf
    cases hp : (dictGet? fields "products").getD (Json.arr []) with
    | arr elems =>
      rw [hp] at hwf
      dsimp only at hwf
      obtain ⟨l, hl⟩ := mapM_str_of_all elems hwf
      have hl₂ : List.mapM.loop
          (fun e => match e with | Json.str s => some s | _ => none) elems []
          = some l := hl
      simp [pyGet, pyJoinComma, hp, hl₂, Bind.bind, Except.bind, pure, Except.pure]
    | str s₂ =>
      simp [pyGet, pyJoinComma, hp, Bind.bind, Except.bind, pure, Except.pure]
    | obj fields₂ =>
      simp [pyGet, pyJoinComma, hp, Bind.bind, Except.bind, pure, Except.pure]
    | null => rw [hp] at hwf; simp at hwf
    | bool b => rw [hp] at hwf; simp at hwf
    | num n => rw [hp] at hwf; simp at hwf
  | null => rw [hc] at hwf; simp at hwf
  | bool b => rw [hc] at hwf; simp at hwf
  | num n => rw [hc] at hwf; simp at hwf
  | str s₂ => rw [hc] at hwf; simp at hwf
  | arr a => rw [hc] at hwf; simp at hwf

/-- C9 witness: the empty tenant configuration is well-formed and
construction succeeds on it with `founder` as entry agent. -/
theorem create_workforce_characterization_witness :
    create_workforce [] = .ok
      { entry_agent := "founder",
        all_agents := AGENT_IDS.map
          (fun a => (a, ⟨((dictGet? HIERARCHY a).map RoleInfo.name).getD a,
                         authorizedTargets a⟩)),
        hierarchy := HIERARCHY } :=
  create_workforce_characterization.2.2 [] rfl

/-- C10: serializing an event flattens `data` over the envelope: a `data`
entry named `type`, `timestamp` or `agent` replaces the event's own field
in the serialized dict, and in the absence of such entries the envelope
fields are preserved exactly. -/
theorem to_dict_flattening (e : SessionEvent) (h : (e.data.map Prod.fst).Nodup) :
    dictGet? e.to_dict "type" = some ((dictGet? e.data "type").getD (Json.str e.type.value))
  ∧ dictGet? e.to_dict "timestamp"
      = some ((dictGet? e.data "timestamp").getD (Json.str e.timestamp))
  ∧ dictGet? e.to_dict "agent" = some ((dictGet? e.data "agent").getD (Json.str e.agent)) := by
  refine ⟨?_, ?_, ?_⟩ <;>
    · rw [SessionEvent.to_dict, dictGet?_foldl_dictSet _ _ _ h]
      cases hd : dictGet? e.data _ with
      | none => simp [dictGet?_cons, dictGet?]
      | some v => simp

/-- C10 witness: a concrete event whose `data` overrides `type` serializes
with the overridden type, while `timestamp` and `agent` are preserved. -/
theorem to_dict_flattening_witness :
    dictGet? (SessionEvent.to_dict ⟨EventType.delta, "ts", "founder",
        [("type", Json.str "override")]⟩) "type" = some (Json.str "override")
  ∧ dictGet? (SessionEvent.to_dict ⟨EventType.delta, "ts", "founder",
        [("type", Json.str "override")]⟩) "timestamp" = some (Json.str "ts")
  ∧ dictGet? (SessionEvent.to_dict ⟨EventType.delta, "ts", "founder",
        [("type", Json.str "override")]⟩) "agent" = some (Json.str "founder") :=
  to_dict_flattening ⟨EventType.delta, "ts", "founder", [("type", Json.str "override")]⟩
    (by decide)

end AiTeam
